import Mathlib

/-!
Verification development for the auto-daily-standup worker.

Strings from the Rust source are shallowly embedded as lists of characters
(`Str`).  Rust byte indices returned by `str::find` are modelled as character
indices; all slice boundaries produced by the source code sit at the ends of
ASCII pattern occurrences, so the two indexings delimit the same substrings.
Calendar dates (chrono `NaiveDate`) are embedded as integers counting days
from a fixed epoch chosen so that day 0 is a Monday (as 0001-01-01 of the
proleptic Gregorian calendar used by chrono is a Monday); `weekday`
arithmetic then becomes arithmetic modulo 7.
-/

set_option maxHeartbeats 1000000
set_option maxRecDepth 4000

abbrev Str := List Char

/-- Embed a Lean string literal as a character list. -/
def str (s : String) : Str := s.data

/-- Model of Rust `str::find(pat)`: index of the first occurrence of the
pattern `p` as a contiguous substring, `none` when there is none. -/
def findSub (p : Str) : Str → Option Nat
  | [] => if p = [] then some 0 else none
  | c :: rest =>
      if p.isPrefixOf (c :: rest) then some 0
      else (findSub p rest).map (fun n => n + 1)

/-- Model of Rust `str::contains(pat)`. -/
def containsSub (s p : Str) : Bool := (findSub p s).isSome

/-- Model of Rust `str::split(sep)`: the list of the separated pieces.  It is
never empty, matching the Rust iterator which always yields at least one
(possibly empty) piece. -/
def splitChar (sep : Char) : Str → List Str
  | [] => [[]]
  | c :: rest =>
      match splitChar sep rest with
      | [] => [[c]]
      | h :: t => if c = sep then [] :: h :: t else (c :: h) :: t

/-- Auxiliary scanner for `replaceAll`; the counter records how many
characters of a just-replaced occurrence remain to be skipped. -/
def replaceAllGo (pat rep : Str) : Str → Nat → Str
  | [], _ => []
  | _ :: rest, n + 1 => replaceAllGo pat rep rest n
  | c :: rest, 0 =>
      if pat ≠ [] ∧ pat.isPrefixOf (c :: rest) then
        rep ++ replaceAllGo pat rep rest (pat.length - 1)
      else
        c :: replaceAllGo pat rep rest 0

/-- Model of Rust `str::replace(pat, rep)`: replace every non-overlapping
occurrence, scanning from the left. -/
def replaceAll (pat rep s : Str) : Str := replaceAllGo pat rep s 0

/-- Strip one trailing carriage return, as Rust `str::lines` does on
`\r\n`-terminated lines. -/
def stripCR (l : Str) : Str := if l.getLast? = some '\r' then l.dropLast else l

/-- Model of Rust `str::lines()`: split at newlines, drop a final empty piece
produced by a trailing newline, and strip `\r` from `\r\n` endings. -/
def linesOf (s : Str) : List Str :=
  if s = [] then []
  else
    let parts := splitChar '\n' s
    let init := parts.dropLast.map stripCR
    match parts.getLast? with
    | some last => if last = [] then init else init ++ [last]
    | none => init

/-- Model of Rust `str::trim()` (ASCII whitespace; the source only ever trims
ASCII and CJK text, and CJK characters are not whitespace). -/
def trimStr (s : Str) : Str :=
  ((s.dropWhile Char.isWhitespace).reverse.dropWhile Char.isWhitespace).reverse

/-- Model of Rust `str::len()`: the UTF-8 byte length. -/
def utf8Len (s : Str) : Nat := (s.map Char.utf8Size).sum

/-- Decimal rendering of a natural number, the model of `format!` on the
numeric fields. -/
def natToStr (n : Nat) : Str := (Nat.repr n).data

/-!  ## Date model and the business-day counter (src/database.rs)  -/

/-- chrono `Weekday::number_from_monday` for the day numbered `d`: day 0 is a
Monday, so the value is `d mod 7 + 1`, in `1..=7`. -/
def numberFromMonday (d : Int) : Int := d.emod 7 + 1

/-- A business day in the sense of the source: `number_from_monday ≤ 5`,
i.e. Monday through Friday. -/
def isBusinessDay (d : Int) : Bool := numberFromMonday d ≤ 5

/-- The `while current <= end` loop of `calculate_work_days`
(src/database.rs:142-156): counts the business days among the `n + 1`
consecutive days starting at `current`. -/
def workDaysLoop : Int → Nat → Int
  | current, 0 => if isBusinessDay current then 1 else 0
  | current, n + 1 =>
      (if isBusinessDay current then 1 else 0) + workDaysLoop (current + 1) n

/-- Model of `DatabaseClient::calculate_work_days` (src/database.rs:129-159)
after successful date parsing: `1` when the range is inverted, otherwise the
loop count floored at `1`. -/
def calculate_work_days (start_date end_date : Int) : Int :=
  if end_date < start_date then 1
  else max (workDaysLoop start_date (end_date - start_date).toNat) 1

/-- The specification's business-day count over the inclusive range
`[first, last]`, written from the spec text of §4.4: defensive `1` on an
inverted range, otherwise the number of Monday-to-Friday days in
`Finset.Icc first last`, floored at `1`. -/
def businessDaysSpec (first last : Int) : Int :=
  if last < first then 1
  else max (((Finset.Icc first last).filter fun d => isBusinessDay d).card : Int) 1

lemma workDaysLoop_eq_card (n : Nat) :
    ∀ s : Int,
      workDaysLoop s n =
        (((Finset.Icc s (s + (n : Int))).filter fun d => isBusinessDay d).card : Int) := by
  induction n with
  | zero =>
      intro s
      simp [workDaysLoop, Finset.Icc_self, Finset.filter_singleton]
      by_cases h : isBusinessDay s <;> simp [h]
  | succ n ih =>
      intro s
      have hins : Finset.Icc s (s + ((n : Int) + 1)) =
          insert s (Finset.Icc (s + 1) (s + 1 + (n : Int))) := by
        ext x
        simp only [Finset.mem_Icc, Finset.mem_insert]
        omega
      have hnot : s ∉ (Finset.Icc (s + 1) (s + 1 + (n : Int))).filter
          (fun d => isBusinessDay d) := by
        simp only [Finset.mem_filter, Finset.mem_Icc]
        omega
      have : workDaysLoop s (n + 1)
          = (if isBusinessDay s then 1 else 0) + workDaysLoop (s + 1) n := rfl
      rw [this, ih (s + 1)]
      push_cast
      rw [hins, Finset.filter_insert]
      by_cases h : isBusinessDay s
      · rw [if_pos h, if_pos h, Finset.card_insert_of_not_mem hnot]
        push_cast
        ring
      · rw [if_neg h, if_neg h]
        simp

/-- The loop-based counter of the source agrees with the specification's
set-cardinality formulation on every pair of dates. -/
lemma calculate_work_days_eq_spec (s e : Int) :
    calculate_work_days s e = businessDaysSpec s e := by
  unfold calculate_work_days businessDaysSpec
  by_cases h : e < s
  · simp [h]
  · have hse : s ≤ e := le_of_not_lt h
    rw [if_neg h, if_neg h, workDaysLoop_eq_card]
    have : s + ((e - s).toNat : Int) = e := by omega
    rw [this]

/-- Claim C1: the business-day count function returns 1 on an inverted range,
otherwise the number of Monday-through-Friday days in the inclusive range
floored at 1; and on a single day, weekday or weekend, it returns 1. -/
theorem calculate_work_days_correct (s e : Int) :
    calculate_work_days s e =
      (if e < s then 1
       else max (((Finset.Icc s e).filter fun d => isBusinessDay d).card : Int) 1)
    ∧ calculate_work_days e e = 1 := by
  constructor
  · exact calculate_work_days_eq_spec s e
  · have h := calculate_work_days_eq_spec e e
    rw [h]
    unfold businessDaysSpec
    rw [if_neg (lt_irrefl e)]
    rw [Finset.Icc_self, Finset.filter_singleton]
    by_cases hb : isBusinessDay e <;> simp [hb]

/-!  ## Task-duration store (src/database.rs)  -/

/-- Record layout of the `taiga_tasks` table (src/database.rs:8-13). -/
structure TaigaTaskRecord where
  task_key : Str
  first_seen_date : Int
  last_seen_date : Int
  total_days : Int
deriving DecidableEq

/-- The rows of the `taiga_tasks` table; the UNIQUE constraint on `task_key`
is not assumed, queries see the first matching row as the SQL ones do. -/
abbrev Store := List TaigaTaskRecord

/-- A placeholder record used as the default of `List.getD`. -/
def dummyRecord : TaigaTaskRecord :=
  { task_key := [], first_seen_date := 0, last_seen_date := 0, total_days := 0 }

/-- Lookup of `get_task_record` (src/database.rs:105-118) on a reachable
store, reduced to its row-selection content: the first row whose `task_key`
matches. -/
def get_task_record (store : Store) (key : Str) : Option TaigaTaskRecord :=
  store.find? (fun r => r.task_key == key)

/-- Model of `record_taiga_task` (src/database.rs:68-102) with the
observation date passed explicitly in place of `Utc::now()`: on a hit,
update `last_seen_date` and recompute `total_days` from the stored
`first_seen_date`; on a miss, insert a fresh row with `total_days = 1`.
Returns the new store and the returned day count. -/
def record_taiga_task (store : Store) (key : Str) (today : Int) : Store × Int :=
  match get_task_record store key with
  | some existing =>
      let total := calculate_work_days existing.first_seen_date today
      (store.map fun x =>
          if x.task_key == key then
            { x with last_seen_date := today, total_days := total }
          else x,
        total)
  | none =>
      (store ++ [{ task_key := key, first_seen_date := today,
                   last_seen_date := today, total_days := 1 }], 1)

/-- The two failure modes of `get_task_record`: the D1 query itself failing
("查询任务记录失败"), or the query succeeding with no row ("未找到任务记录"). -/
inductive DbError where
  | queryFailed : DbError
  | notFound : DbError
deriving DecidableEq

/-- Persistence-layer state: either the backing database is unreachable (every
query errors), or it holds the table rows. -/
inductive DbState where
  | unavailable : DbState
  | tables : Store → DbState

/-- Model of `get_task_record` (src/database.rs:105-118) seen with its failure modes:
a query against an unreachable store fails, a missing row is `notFound`. -/
def db_get_task_record : DbState → Str → Except DbError TaigaTaskRecord
  | DbState.unavailable, _ => Except.error DbError.queryFailed
  | DbState.tables rows, key =>
      match get_task_record rows key with
      | some r => Except.ok r
      | none => Except.error DbError.notFound

/-- Model of `get_task_days` (src/database.rs:121-126): the source matches on
the result of `get_task_record` and maps every `Err(_)` — not only the
not-found case — to `Ok(1)`. -/
def get_task_days (db : DbState) (key : Str) : Except DbError Int :=
  match db_get_task_record db key with
  | Except.ok r => Except.ok r.total_days
  | Except.error _ => Except.ok 1

/-- Model of `cleanup_old_tasks` (src/database.rs:181-197) with the reference
date passed explicitly: `DELETE FROM taiga_tasks WHERE last_seen_date < ?1`
with the cutoff `reference_date - 30` days.  The SQL comparison of
`YYYY-MM-DD` strings coincides with the order on day numbers. -/
def cleanup_old_tasks (store : Store) (reference_date : Int) : Store :=
  store.filter fun r => !decide (r.last_seen_date < reference_date - 30)

/-- Model of `extract_task_key_from_url` (src/database.rs:49-65).  The source
slices `&url[project_start + 9..task_start]`; a Rust slice whose start index
exceeds its end index aborts the process, which the model surfaces as
`Except.error ()`.  Every other path returns normally. -/
def extract_task_key_from_url (url : Str) : Except Unit (Option Str) :=
  match findSub (str ("/project/")) url with
  | none => Except.ok none
  | some project_start =>
      match findSub (str ("/task/")) url with
      | none => Except.ok none
      | some task_start =>
          if project_start + 9 ≤ task_start then
            let project_part :=
              (url.drop (project_start + 9)).take (task_start - (project_start + 9))
            let task_part := url.drop (task_start + 6)
            match (splitChar '/' task_part).head? with
            | some task_id =>
                if task_id.all Char.isDigit then
                  Except.ok (some (project_part ++ '#' :: task_id))
                else Except.ok none
            | none => Except.ok none
          else Except.error ()

/-- Claim C2: `record_taiga_task` is an upsert.  A miss inserts a fresh row
carrying the observation date as both seen dates and a count of 1, returning
1; a hit rewrites exactly the rows with the given key, keeping
`first_seen_date`, setting `last_seen_date` to the observation date and
storing and returning the business-day count of the inclusive range from the
stored `first_seen_date` to the observation date. -/
theorem record_taiga_task_upsert (store : Store) (key : Str) (today : Int) :
    (get_task_record store key = none →
       record_taiga_task store key today =
         (store ++ [{ task_key := key, first_seen_date := today,
                      last_seen_date := today, total_days := 1 }], 1))
    ∧ (∀ r, get_task_record store key = some r →
        (record_taiga_task store key today).2 = businessDaysSpec r.first_seen_date today
        ∧ (record_taiga_task store key today).1.length = store.length
        ∧ (∀ i, (hi : i < store.length) →
            (store[i].task_key ≠ key →
              (record_taiga_task store key today).1.getD i dummyRecord = store[i])
            ∧ (store[i].task_key = key →
              (record_taiga_task store key today).1.getD i dummyRecord =
                { store[i] with
                  last_seen_date := today,
                  total_days := businessDaysSpec r.first_seen_date today }))) := by
  constructor
  · intro h
    simp [record_taiga_task, h]
  · intro r h
    have hcd := calculate_work_days_eq_spec r.first_seen_date today
    refine ⟨?_, ?_, ?_⟩
    · simp [record_taiga_task, h, hcd]
    · simp [record_taiga_task, h]
    · intro i hi
      have hmap : (record_taiga_task store key today).1 =
          store.map fun x =>
            if x.task_key == key then
              { x with last_seen_date := today,
                       total_days := calculate_work_days r.first_seen_date today }
            else x := by
        simp [record_taiga_task, h]
      have hilt : i < (store.map fun x =>
          if x.task_key == key then
            { x with last_seen_date := today,
                     total_days := calculate_work_days r.first_seen_date today }
          else x).length := by
        simpa using hi
      constructor
      · intro hne
        rw [hmap, List.getD_eq_getElem _ _ hilt, List.getElem_map]
        have : (store[i].task_key == key) = false := by
          simpa [beq_iff_eq] using hne
        simp [this]
      · intro heq
        rw [hmap, List.getD_eq_getElem _ _ hilt, List.getElem_map]
        have : (store[i].task_key == key) = true := by
          simpa [beq_iff_eq] using heq
        simp [this, hcd]

/-- Witness store for the upsert theorem: one task first seen on day 0
(a Monday). -/
def storeW : Store :=
  [{ task_key := str ("alpha#7"), first_seen_date := 0,
     last_seen_date := 0, total_days := 1 }]

/-- Witness for C2: re-observing the stored task on day 2 returns the
business-day count of the range from day 0 to day 2. -/
theorem record_taiga_task_upsert_witness :
    (record_taiga_task storeW (str ("alpha#7")) 2).2 = businessDaysSpec 0 2 :=
  ((record_taiga_task_upsert storeW (str ("alpha#7")) 2).2
    { task_key := str ("alpha#7"), first_seen_date := 0,
      last_seen_date := 0, total_days := 1 } rfl).1

/-- Counterexample for C4: with the persistence layer unreachable the lookup
does not surface an error — `get_task_days` swallows the failure and answers
`Ok(1)`, exactly what the claim says must not happen. -/
theorem get_task_days_swallows_store_failure :
    get_task_days DbState.unavailable (str ("alpha#7")) = Except.ok 1 := rfl

/-- Claim C4 as amended: `get_task_days` never fails the caller; it returns 1
both when no record exists and when the persistence layer is unreachable, and
returns the stored count when the lookup succeeds. -/
theorem get_task_days_amended (db : DbState) (key : Str) :
    (db_get_task_record db key = Except.error DbError.notFound →
        get_task_days db key = Except.ok 1)
    ∧ (db_get_task_record db key = Except.error DbError.queryFailed →
        get_task_days db key = Except.ok 1)
    ∧ (∀ r, db_get_task_record db key = Except.ok r →
        get_task_days db key = Except.ok r.total_days)
    ∧ (∀ e, get_task_days db key ≠ Except.error e) := by
  refine ⟨?_, ?_, ?_, ?_⟩
  · intro h; simp [get_task_days, h]
  · intro h; simp [get_task_days, h]
  · intro r h; simp [get_task_days, h]
  · intro e
    unfold get_task_days
    cases h : db_get_task_record db key <;> simp

/-- Witness for the amended C4: an empty (but reachable) store yields the
defined not-found default of 1. -/
theorem get_task_days_amended_witness :
    get_task_days (DbState.tables []) (str ("alpha#7")) = Except.ok 1 :=
  (get_task_days_amended (DbState.tables []) (str ("alpha#7"))).1 rfl

/-- Claim C5: after the sweep with reference date `R`, no surviving record has
`last_seen_date` strictly older than `R - 30`; every record at or after the
cutoff survives verbatim; and the sweep only deletes, preserving the order
and content of the surviving rows. -/
theorem cleanup_old_tasks_retention (store : Store) (reference_date : Int) :
    (∀ r ∈ cleanup_old_tasks store reference_date,
        ¬ r.last_seen_date < reference_date - 30)
    ∧ (∀ r ∈ store, ¬ r.last_seen_date < reference_date - 30 →
        r ∈ cleanup_old_tasks store reference_date)
    ∧ (cleanup_old_tasks store reference_date).Sublist store := by
  refine ⟨?_, ?_, ?_⟩
  · intro r hr
    have := (List.mem_filter.mp hr).2
    simpa using this
  · intro r hr hkeep
    refine List.mem_filter.mpr ⟨hr, ?_⟩
    simpa using hkeep
  · exact List.filter_sublist store

/-- Witness store for the retention theorem: one stale row, one fresh row. -/
def storeSweepW : Store :=
  [{ task_key := str ("old#1"), first_seen_date := 0,
     last_seen_date := 0, total_days := 1 },
   { task_key := str ("new#2"), first_seen_date := 90,
     last_seen_date := 95, total_days := 4 }]

/-- Witness for C5: sweeping at reference date 100 keeps the row last seen on
day 95 (the cutoff being day 70). -/
theorem cleanup_old_tasks_retention_witness :
    { task_key := str ("new#2"), first_seen_date := 90,
      last_seen_date := 95, total_days := 4 : TaigaTaskRecord }
      ∈ cleanup_old_tasks storeSweepW 100 :=
  (cleanup_old_tasks_retention storeSweepW 100).2.1
    { task_key := str ("new#2"), first_seen_date := 90,
      last_seen_date := 95, total_days := 4 }
    (by decide) (by decide)

/-- Claim C10 (code defect): on an input where `/task/` occurs before
`/project/`, the slice `&url[project_start + 9..task_start]` of the source has
its start index beyond its end index, which aborts the process instead of
returning `None`. -/
theorem extract_task_key_panics :
    extract_task_key_from_url (str ("/task/1/project/x")) = Except.error () := rfl

/-!  ## Report-layer text extraction (src/github_api.rs and src/api.rs)  -/

/-- Truncation used by `api.rs::extract_work_summary`: keep the first 50
characters and append an ellipsis when the UTF-8 byte length (Rust
`str::len`) of the whole selected line exceeds 50. -/
def truncate50 (s : Str) : Str :=
  s.take 50 ++ (if 50 < utf8Len s then str ("...") else [])

/-- Matcher for the regex `#(\d+)` at the start of `s`: a hash followed by at
least one digit, capturing the maximal digit run. -/
def hashCaptureAt (s : Str) : Option Str :=
  match s with
  | '#' :: rest =>
      let digits := rest.takeWhile Char.isDigit
      if digits ≠ [] then some digits else none
  | _ => none

/-- Leftmost-match search: try the position matcher `f` at every suffix, left
to right, the way a regex engine locates its first match. -/
def scanFirst (f : Str → Option Str) : Str → Option Str
  | [] => f []
  | c :: rest =>
      match f (c :: rest) with
      | some r => some r
      | none => scanFirst f rest

namespace GithubApi

/-- Matcher for `https://[^\s/]+\.taiga\.io/project/[^/]+/task/(\d+)`
(src/github_api.rs:171) at the start of `s`.  After the literal scheme the
host class `[^\s/]+` must consume the full run up to the next `/` (the
pattern requires a `/` immediately after `.taiga.io`), so the run must end in
`.taiga.io` with a nonempty prefix before it; likewise the project class
`[^/]+` must consume the run up to the `/` of `/task/`.  The capture is the
maximal digit run after `/task/`. -/
def taigaUrlCaptureAt (s : Str) : Option Str :=
  if (str ("https://")).isPrefixOf s then
    let rest := s.drop 8
    let run := rest.takeWhile fun c => !c.isWhitespace && !(c = '/')
    if 10 ≤ run.length ∧ (str (".taiga.io")).isSuffixOf run then
      let after := rest.drop run.length
      if (str ("/project/")).isPrefixOf after then
        let afterProj := after.drop 9
        let slug := afterProj.takeWhile fun c => !(c = '/')
        if slug ≠ [] ∧ (str ("/task/")).isPrefixOf (afterProj.drop slug.length) then
          let digits := (afterProj.drop (slug.length + 6)).takeWhile Char.isDigit
          if digits ≠ [] then some digits else none
        else none
      else none
    else none
  else none

/-- Model of `GitHubApiClient::extract_taiga_info` (src/github_api.rs:167-187):
the first Taiga-URL match in `"{title} {body}"` yields `Task #<digits>`,
otherwise the first `#<digits>` token does, otherwise the empty string. -/
def extract_taiga_info (title body : Str) : Str :=
  let combined := title ++ str (" ") ++ body
  match scanFirst taigaUrlCaptureAt combined with
  | some digits => str ("Task #") ++ digits
  | none =>
      match scanFirst hashCaptureAt combined with
      | some digits => str ("Task #") ++ digits
      | none => []

/-- Model of `GitHubApiClient::extract_project_code`
(src/github_api.rs:190-196): the last `/`-separated segment of the repository
URL, upper-cased (`char::to_uppercase`, here on its ASCII range — every
repository name in play is ASCII). -/
def extract_project_code (repo_url : Str) : Str :=
  match (splitChar '/' repo_url).getLast? with
  | some repo_name => repo_name.map Char.toUpper
  | none => []

/-- Model of `GitHubApiClient::extract_work_summary`
(src/github_api.rs:199-218): truncate the body to 200 characters (ellipsis
when truncated), then join the trimmed nonempty lines with single spaces. -/
def extract_work_summary (body : Str) : Str :=
  if body = [] then []
  else
    let summary := if 200 < body.length then body.take 200 ++ str ("...") else body
    List.intercalate (str (" "))
      (((linesOf summary).map trimStr).filter fun l => !l.isEmpty)

/-- The fixed AI-instruction trailer of `generate_ai_prompt`
(src/github_api.rs:221-249). -/
def aiPrompt : Str :=
  str ("请基于上述 GitHub PR 数据，生成符合以下格式的每日站会报告：\n\n格式要求：\n- 有对应 Taiga issue 的：[天数]项目代号#Taiga编号-工作内容\n- 无对应 Taiga issue 的：[天数]工作内容\n- [天数] 是指这项工作到目前为止累积的天数\n\n示例：\n[2]xxxAsk#3-重构登录逻辑\n[1]ktv#15-完成功能开发，准备测试\n[3]学习Flutter和Dart\n\n生成要求\n\n1. 内容应简洁明了，避免冗长描述\n2. 机密项目应避免透露敏感信息\n3. 耗时一小时以下的工作无需汇报\n4. 根据 PR 状态推断工作进度：\n   - 已合并的 PR = 工作已完成\n   - 进行中的 PR = 工作正在进行\n   - 已关闭未合并的 PR = 工作可能取消或需要重新开始\n5. 请自动提取项目代号，去除项目代号中无关部分，例如组织名、子模块名等等，例如 XXX-International-Corp/XXXX_flutter 提取为 XXXX，去除了XXX-International-Corp/和_flutter\n6. 项目代号不要全部大写！\n\n请基于上述数据生成今日的站会报告内容。如果没有足够的信息推断天数，可以标记为 [1] 表示新开始的工作。\n请输出纯文本，不要使用 markdown，不要包含任何 markdown 语法。\n为了避免涉密，请不要输出任何与项目相关的信息，尽量简要描述今天的工作内容就够了。")

/-- The fields of a search-result item that `generate_standup_report` reads
(src/github_api.rs:17-32, with `pull_request.merged_at` flattened in). -/
structure PullRequestItem where
  title : Str
  repository_url : Str
  html_url : Str
  state : Str
  merged_at : Option Str
  body : Option Str

/-- The fields of the GitHub search response the synthesizer reads
(src/github_api.rs:9-13). -/
structure GitHubSearchResponse where
  total_count : Nat
  incomplete_results : Bool
  items : List PullRequestItem

/-- The status label of a PR block (src/github_api.rs:125-133). -/
def statusLabel (pr : PullRequestItem) : Str :=
  match pr.merged_at with
  | some _ => str ("已合并")
  | none => if pr.state = str ("closed") then str ("已关闭") else str ("进行中")

/-- One PR block of the report (src/github_api.rs:120-156); `index` is the
zero-based enumeration index. -/
def prBlock (index : Nat) (pr : PullRequestItem) : Str :=
  str ("### PR #") ++ natToStr (index + 1) ++ str ("\n")
  ++ str ("- 标题：") ++ pr.title ++ str ("\n")
  ++ str ("- 仓库：")
    ++ replaceAll (str ("https://api.github.com/repos/")) [] pr.repository_url
    ++ str ("\n")
  ++ str ("- 状态：") ++ statusLabel pr ++ str ("\n")
  ++ (let taiga := extract_taiga_info pr.title (pr.body.getD []);
      if taiga.isEmpty then [] else str ("- 关联 Taiga：") ++ taiga ++ str ("\n"))
  ++ (let code := extract_project_code pr.repository_url;
      if code.isEmpty then [] else str ("- 项目代号：") ++ code ++ str ("\n"))
  ++ (let ws := extract_work_summary (pr.body.getD []);
      if ws.isEmpty then [] else str ("- 工作内容：") ++ ws ++ str ("\n"))
  ++ str ("- 链接：") ++ pr.html_url ++ str ("\n")
  ++ str ("\n")

/-- The concatenation of all PR blocks in input order. -/
def prBlocks (items : List PullRequestItem) : Str :=
  (items.enum.map fun p => prBlock p.1 p.2).flatten

/-- Model of `GitHubApiClient::generate_standup_report`
(src/github_api.rs:107-164). -/
def generate_standup_report (response : GitHubSearchResponse) : Str :=
  str ("=== 每日站会报告数据 ===\n\n")
  ++ str ("## 原始 GitHub PR 数据摘要\n")
  ++ str ("- 今日创建的 PR 总数：") ++ natToStr response.total_count ++ str ("\n")
  ++ str ("- 数据完整性：")
    ++ (if response.incomplete_results then str ("部分数据") else str ("完整数据"))
    ++ str ("\n\n")
  ++ (if response.items.isEmpty then
        str ("今天没有创建任何 PR，可能没有代码提交工作完成。\n\n")
      else
        str ("## PR 详细信息\n\n") ++ prBlocks response.items)
  ++ str ("## AI 处理指引\n") ++ aiPrompt

end GithubApi

namespace Api

/-- Model of `GitHubApiClient::extract_taiga_info` (src/api.rs:230-252): the
first literal `https://tree.taiga.io/` occurrence is returned up to the next
whitespace character (or to the end); otherwise the first `#<digits>` token is
returned as `#<digits>`; otherwise the empty string. -/
def extract_taiga_info (title body : Str) : Str :=
  let content := title ++ str (" ") ++ body
  match findSub (str ("https://tree.taiga.io/")) content with
  | some start =>
      let suffix := content.drop start
      match suffix.findIdx? Char.isWhitespace with
      | some endIdx => suffix.take endIdx
      | none => suffix
  | none =>
      match scanFirst hashCaptureAt content with
      | some digits => '#' :: digits
      | none => []

/-- Model of `GitHubApiClient::extract_project_code` (src/api.rs:255-265):
strip the `https://api.github.com/repos/` scheme, then take the last
`/`-separated segment, preserving its casing. -/
def extract_project_code (repo_url : Str) : Str :=
  let cleaned := replaceAll (str ("https://api.github.com/repos/")) [] repo_url
  match (splitChar '/' cleaned).getLast? with
  | some repo_name => repo_name
  | none => cleaned

/-- First pass of `extract_work_summary` (src/api.rs:286-299): scan for a line
containing a heading keyword; the line after the first line equal to it is the
candidate, accepted when nonempty after trimming and not starting with a
heading or list marker.  A rejected candidate continues the scan. -/
def summaryPhase1 (lines : List Str) : List Str → Option Str
  | [] => none
  | line :: rest =>
      if containsSub line (str ("简介")) || containsSub line (str ("主要改动"))
          || containsSub line (str ("变更内容")) then
        match lines.findIdx? (fun l => l == line) with
        | some pos =>
            if pos + 1 < lines.length then
              if trimStr (lines.getD (pos + 1) []) ≠ []
                  ∧ (trimStr (lines.getD (pos + 1) [])).head? ≠ some '#'
                  ∧ (trimStr (lines.getD (pos + 1) [])).head? ≠ some '-' then
                some (truncate50 (trimStr (lines.getD (pos + 1) [])))
              else summaryPhase1 lines rest
            else summaryPhase1 lines rest
        | none => summaryPhase1 lines rest
      else summaryPhase1 lines rest

/-- Fallback pass of `extract_work_summary` (src/api.rs:302-312): the first
trimmed line that is nonempty, no heading, no code fence, no bare URL, and
longer than 10 bytes. -/
def summaryPhase2 : List Str → Option Str
  | [] => none
  | line :: rest =>
      if trimStr line ≠ [] ∧ (trimStr line).head? ≠ some '#'
          ∧ ¬ (str ("```")).isPrefixOf (trimStr line)
          ∧ ¬ (str ("http")).isPrefixOf (trimStr line)
          ∧ 10 < utf8Len (trimStr line) then
        some (truncate50 (trimStr line))
      else summaryPhase2 rest

/-- Model of `GitHubApiClient::extract_work_summary` (src/api.rs:282-315). -/
def extract_work_summary (body : Str) : Str :=
  let lines := linesOf body
  match summaryPhase1 lines lines with
  | some s => s
  | none =>
      match summaryPhase2 lines with
      | some s => s
      | none => []

end Api

/-!  ## Scheduling gate (src/lib.rs)  -/

/-- The decision the scheduled handler reaches: run the pipeline, skip the
day, or run the pipeline while logging that the day-type check failed. -/
inductive GateDecision where
  | run : GateDecision
  | skip : GateDecision
  | runDegraded : GateDecision
deriving DecidableEq

/-- The `match holiday_response.status` of `is_working_day`
(src/lib.rs:227-248), written as the equivalent sequential test: `0` ordinary
workday and `2` compensatory workday answer true, `1` weekend, `3` holiday and
every unknown code answer false. -/
def working_day_status (status : Int) : Bool :=
  if status = 0 then true
  else if status = 1 then false
  else if status = 2 then true
  else if status = 3 then false
  else false

/-- The dispatch of `scheduled_handler` (src/lib.rs:33-59) on the outcome of
`is_working_day`: `Ok(true)` runs, `Ok(false)` skips, and a lookup failure
logs a warning and runs anyway (`runDegraded`). -/
def scheduled_decision (signal : Except Str Int) : GateDecision :=
  match signal with
  | Except.ok s => if working_day_status s then GateDecision.run else GateDecision.skip
  | Except.error _ => GateDecision.runDegraded

/-- Whether a decision executes the report pipeline (src/lib.rs:33-59: both
the plain run and the degraded run invoke `generate_and_send_daily_standup`). -/
def pipeline_runs : GateDecision → Bool
  | GateDecision.run => true
  | GateDecision.skip => false
  | GateDecision.runDegraded => true

/-- Claim C8: the gate decides a plain run exactly for day-type codes 0 and 2;
every other obtained code — including unknown ones — skips; an unobtainable
signal produces the degraded run, a warning-surfacing decision distinct from
the plain run that still executes the pipeline. -/
theorem scheduling_gate_correct (signal : Except Str Int) :
    scheduled_decision signal =
      (match signal with
       | Except.ok s =>
           if s = 0 ∨ s = 2 then GateDecision.run else GateDecision.skip
       | Except.error _ => GateDecision.runDegraded)
    ∧ pipeline_runs (scheduled_decision signal) =
      (match signal with
       | Except.ok s => decide (s = 0 ∨ s = 2)
       | Except.error _ => true) := by
  cases signal with
  | ok s =>
      have hw : working_day_status s = decide (s = 0 ∨ s = 2) := by
        unfold working_day_status
        by_cases h0 : s = 0 <;> by_cases h1 : s = 1 <;> by_cases h2 : s = 2
          <;> by_cases h3 : s = 3 <;> simp_all
      constructor
      · simp only [scheduled_decision, hw]
        by_cases h : s = 0 ∨ s = 2 <;> simp [h]
      · simp only [scheduled_decision, hw]
        by_cases h : s = 0 ∨ s = 2 <;> simp [h, pipeline_runs]
  | error e => exact ⟨rfl, rfl⟩

/-- Counterexample for C3: the report-layer task-reference extractor, fed the
spec's own example body, recognizes no reference at all — its URL pattern
demands a `*.taiga.io` host, so `tree.example.io` does not yield
`zen-soraka#41`; and a bare `Fixes #12` yields the label `Task #12`, not the
bare reference `#12`. -/
theorem extract_taiga_info_counterexample :
    GithubApi.extract_taiga_info []
        (str ("https://tree.example.io/project/zen-soraka/task/41")) = []
    ∧ GithubApi.extract_taiga_info [] (str ("Fixes #12")) = str ("Task #12") :=
  ⟨rfl, rfl⟩

/-- Claim C6 (code defect): the wired-in resolver of src/github_api.rs
upper-cases the repository name, against the requirement — stated both by the
spec and by the prompt the same file emits ("项目代号不要全部大写！") — while
the src/api.rs variant preserves the natural casing. -/
theorem extract_project_code_uppercases :
    GithubApi.extract_project_code
        (str ("https://api.github.com/repos/uiYzzi/auto_daily_stand-up_meeting"))
      = str ("AUTO_DAILY_STAND-UP_MEETING")
    ∧ Api.extract_project_code
        (str ("https://api.github.com/repos/uiYzzi/auto_daily_stand-up_meeting"))
      = str ("auto_daily_stand-up_meeting") :=
  ⟨rfl, rfl⟩

/-- Counterexample for C7: the src/github_api.rs summary extractor returns a
60-character excerpt for a 60-character body, ignoring the claimed 50-char
bound; and the src/api.rs variant appends the ellipsis to a 17-character line
that was not truncated at all (its UTF-8 length, 51 bytes, exceeds 50), so
the ellipsis does not mark truncation and length is not measured in
characters. -/
theorem extract_work_summary_counterexample :
    (GithubApi.extract_work_summary (List.replicate 60 'a')).length = 60
    ∧ Api.extract_work_summary (str ("七七七七七七七七七七七七七七七七七"))
        = str ("七七七七七七七七七七七七七七七七七") ++ str ("...")
    ∧ (str ("七七七七七七七七七七七七七七七七七")).take 50
        = str ("七七七七七七七七七七七七七七七七七") :=
  ⟨rfl, rfl, rfl⟩

/-- Counterexample for C9: the header's total is the response's `total_count`
field, not the length of the PR list — a response with an empty list but
`total_count = 5` reports 5, not 0. -/
theorem generate_standup_report_counterexample :
    containsSub
        (GithubApi.generate_standup_report
          { total_count := 5, incomplete_results := false, items := [] })
        (str ("- 今日创建的 PR 总数：5")) = true
    ∧ containsSub
        (GithubApi.generate_standup_report
          { total_count := 5, incomplete_results := false, items := [] })
        (str ("总数：0")) = false :=
  ⟨rfl, rfl⟩

/-!  ## Locating pattern occurrences inside concatenations  -/

lemma isPrefixOf_length_le (p : Str) :
    ∀ x : Str, p.isPrefixOf x = true → p.length ≤ x.length := by
  induction p with
  | nil => intro x _; simp
  | cons a as ih =>
      intro x h
      cases x with
      | nil => simp [List.isPrefixOf] at h
      | cons c cs =>
          simp only [List.isPrefixOf, Bool.and_eq_true] at h
          have := ih cs h.2
          simp only [List.length_cons]
          omega

lemma isPrefixOf_extend (p : Str) :
    ∀ x b : Str, p.isPrefixOf x = true → p.isPrefixOf (x ++ b) = true := by
  induction p with
  | nil => intro x b _; simp [List.isPrefixOf]
  | cons a as ih =>
      intro x b h
      cases x with
      | nil => simp [List.isPrefixOf] at h
      | cons c cs =>
          simp only [List.isPrefixOf, Bool.and_eq_true] at h
          simp only [List.cons_append, List.isPrefixOf, Bool.and_eq_true]
          exact ⟨h.1, ih cs b h.2⟩

lemma isPrefixOf_shorten (p : Str) :
    ∀ x b : Str, p.length ≤ x.length → p.isPrefixOf (x ++ b) = true →
      p.isPrefixOf x = true := by
  induction p with
  | nil => intro x b _ _; simp [List.isPrefixOf]
  | cons a as ih =>
      intro x b hlen h
      cases x with
      | nil => simp at hlen
      | cons c cs =>
          simp only [List.cons_append, List.isPrefixOf, Bool.and_eq_true] at h
          simp only [List.isPrefixOf, Bool.and_eq_true]
          refine ⟨h.1, ih cs b ?_ h.2⟩
          simp only [List.length_cons] at hlen
          omega

lemma findSub_le (p : Str) : ∀ s i, findSub p s = some i → i ≤ s.length := by
  intro s
  induction s with
  | nil =>
      intro i h
      rw [findSub] at h
      split at h
      · cases h; exact Nat.le_refl 0
      · cases h
  | cons c rest ih =>
      intro i h
      rw [findSub] at h
      split at h
      · cases h; exact Nat.zero_le _
      · obtain ⟨j, hj, rfl⟩ := Option.map_eq_some'.mp h
        have := ih j hj
        simp only [List.length_cons]
        omega

lemma findSub_sound (p : Str) :
    ∀ s i, findSub p s = some i → p.isPrefixOf (s.drop i) = true := by
  intro s
  induction s with
  | nil =>
      intro i h
      rw [findSub] at h
      split at h
      · cases h
        simp_all [List.isPrefixOf]
      · cases h
  | cons c rest ih =>
      intro i h
      by_cases hp : p.isPrefixOf (c :: rest) = true
      · rw [findSub, if_pos hp] at h
        cases h
        simpa using hp
      · rw [findSub, if_neg hp] at h
        obtain ⟨j, hj, rfl⟩ := Option.map_eq_some'.mp h
        simpa using ih j hj

lemma findSub_min (p : Str) :
    ∀ s i, findSub p s = some i → ∀ j, j < i → p.isPrefixOf (s.drop j) = false := by
  intro s
  induction s with
  | nil =>
      intro i h j hj
      rw [findSub] at h
      split at h
      · cases h; omega
      · cases h
  | cons c rest ih =>
      intro i h j hj
      by_cases hp : p.isPrefixOf (c :: rest) = true
      · rw [findSub, if_pos hp] at h
        cases h; omega
      · rw [findSub, if_neg hp] at h
        obtain ⟨k, hk, rfl⟩ := Option.map_eq_some'.mp h
        cases j with
        | zero =>
            simp only [List.drop_zero]
            exact Bool.not_eq_true _ ▸ eq_false_of_ne_true hp
        | succ j2 =>
            simpa using ih k hk j2 (by omega)

lemma findSub_complete (p : Str) :
    ∀ s j, p.isPrefixOf (s.drop j) = true → ∃ i, i ≤ j ∧ findSub p s = some i := by
  intro s
  induction s with
  | nil =>
      intro j h
      simp only [List.drop_nil] at h
      have hp : p = [] := by
        cases p with
        | nil => rfl
        | cons x xs => simp [List.isPrefixOf] at h
      exact ⟨0, Nat.zero_le j, by rw [findSub]; simp [hp]⟩
  | cons c rest ih =>
      intro j h
      by_cases hp : p.isPrefixOf (c :: rest) = true
      · exact ⟨0, Nat.zero_le j, by rw [findSub]; simp [hp]⟩
      · cases j with
        | zero =>
            simp only [List.drop_zero] at h
            exact absurd h hp
        | succ j2 =>
            obtain ⟨i, hi, hfind⟩ := ih j2 (by simpa using h)
            refine ⟨i + 1, by omega, ?_⟩
            rw [findSub]
            simp [hp, hfind]

/-- The first occurrence of a pattern inside `a` is also the first occurrence
inside `a ++ b`: an earlier occurrence in the extension would lie entirely
inside `a` (it starts before an occurrence that already fits in `a`),
contradicting minimality in `a`. -/
lemma findSub_append_of_some (p a b : Str) (i : Nat) (h : findSub p a = some i) :
    findSub p (a ++ b) = some i := by
  have hocc := findSub_sound p a i h
  have hile : i ≤ a.length := findSub_le p a i h
  have hplen : p.length ≤ a.length - i := by
    have hl := isPrefixOf_length_le p (a.drop i) hocc
    simpa [List.length_drop] using hl
  have hocc2 : p.isPrefixOf ((a ++ b).drop i) = true := by
    rw [List.drop_append_of_le_length hile]
    exact isPrefixOf_extend _ _ _ hocc
  obtain ⟨i2, hle, hsome⟩ := findSub_complete p (a ++ b) i hocc2
  rcases Nat.lt_or_ge i2 i with hlt | hge
  · exfalso
    have hs2 := findSub_sound p (a ++ b) i2 hsome
    have hja : i2 ≤ a.length := by omega
    rw [List.drop_append_of_le_length hja] at hs2
    have hsh : p.isPrefixOf (a.drop i2) = true := by
      refine isPrefixOf_shorten p (a.drop i2) b ?_ hs2
      simp only [List.length_drop]
      omega
    have := findSub_min p a i h i2 hlt
    rw [this] at hsh
    cases hsh
  · have : i2 = i := by omega
    subst this
    exact hsome

lemma splitChar_no_sep (sep : Char) :
    ∀ d : Str, (∀ c ∈ d, ¬ c = sep) → splitChar sep d = [d] := by
  intro d
  induction d with
  | nil => intro _; rfl
  | cons c rest ih =>
      intro h
      have hc : ¬ c = sep := h c (List.mem_cons_self c rest)
      have hrest := ih fun x hx => h x (List.mem_cons_of_mem c hx)
      rw [splitChar, hrest]
      simp [hc]

/-- Claim C3 as amended.  The store-layer extractor, applied to a URL of the
exemplified shape with any digit string as the task id, does produce the task
key `zen-soraka#<digits>`.  The report-layer extractor on title/body text
recognizes only `*.taiga.io` hosts and produces the label `Task #<digits>`
without any project-slug binding; a bare `#<digits>` token yields the same
label form, and the URL pattern takes priority over the bare token. -/
theorem task_reference_extraction_amended (d : Str)
    (hd : ∀ c ∈ d, c.isDigit = true) :
    extract_task_key_from_url
        (str ("https://tree.example.io/project/zen-soraka/task/") ++ d)
      = Except.ok (some (str ("zen-soraka#") ++ d))
    ∧ GithubApi.extract_taiga_info [] (str ("Fixes #12")) = str ("Task #12")
    ∧ GithubApi.extract_taiga_info (str ("T"))
        (str ("see https://tree.taiga.io/project/zen/task/41 and #99"))
      = str ("Task #41") := by
  refine ⟨?_, rfl, rfl⟩
  have hproj : findSub (str ("/project/"))
      (str ("https://tree.example.io/project/zen-soraka/task/") ++ d) = some 23 :=
    findSub_append_of_some _ _ _ _ (by decide)
  have htask : findSub (str ("/task/"))
      (str ("https://tree.example.io/project/zen-soraka/task/") ++ d) = some 42 :=
    findSub_append_of_some _ _ _ _ (by decide)
  have hdrop32 : (str ("https://tree.example.io/project/zen-soraka/task/") ++ d).drop 32
      = (str ("https://tree.example.io/project/zen-soraka/task/")).drop 32 ++ d :=
    List.drop_append_of_le_length (by decide)
  have hdrop48 : (str ("https://tree.example.io/project/zen-soraka/task/") ++ d).drop 48 = d := by
    have hlen : (str ("https://tree.example.io/project/zen-soraka/task/")).length = 48 := rfl
    rw [← hlen]
    exact List.drop_left _ _
  have hnosep : ∀ c ∈ d, ¬ c = '/' := by
    intro c hc heq
    have := hd c hc
    rw [heq] at this
    simp [Char.isDigit] at this
  have hsplit : splitChar '/' d = [d] := splitChar_no_sep '/' d hnosep
  have hall : d.all Char.isDigit = true := List.all_eq_true.mpr hd
  unfold extract_task_key_from_url
  rw [hproj, htask]
  have hcond : 23 + 9 ≤ 42 := by norm_num
  simp only [hcond, if_true, if_pos hcond]
  rw [hdrop32]
  have htake : ((str ("https://tree.example.io/project/zen-soraka/task/")).drop 32 ++ d).take (42 - (23 + 9))
      = str ("zen-soraka") := by
    rw [List.take_append_of_le_length (by decide)]
    decide
  rw [htake]
  rw [show (42 : Nat) + 6 = 48 from rfl, hdrop48]
  rw [hsplit]
  simp only [List.head?, hall, if_pos]
  have hjoin : str ("zen-soraka") ++ '#' :: d = str ("zen-soraka#") ++ d := by
    have : str ("zen-soraka#") = str ("zen-soraka") ++ ['#'] := by decide
    rw [this, List.append_assoc]
    rfl
  rw [hjoin]

/-- Witness for the amended C3 at the concrete digit string 41. -/
theorem task_reference_extraction_amended_witness :
    extract_task_key_from_url
        (str ("https://tree.example.io/project/zen-soraka/task/") ++ str ("41"))
      = Except.ok (some (str ("zen-soraka#") ++ str ("41"))) :=
  (task_reference_extraction_amended (str ("41")) (by decide)).1

/-!  ## Shape of the api.rs work-summary extractor  -/

lemma truncate50_length (l : Str) : (truncate50 l).length ≤ 53 := by
  unfold truncate50
  by_cases h : 50 < utf8Len l
  · rw [if_pos h]
    have h3 : (str ("...")).length = 3 := rfl
    rw [List.length_append, h3]
    have := List.length_take 50 l
    omega
  · rw [if_neg h, List.append_nil]
    have := List.length_take 50 l
    omega

lemma summaryPhase1_shape (lines : List Str) :
    ∀ rest, Api.summaryPhase1 lines rest = none
      ∨ ∃ l, Api.summaryPhase1 lines rest = some (truncate50 l) := by
  intro rest
  induction rest with
  | nil => exact Or.inl rfl
  | cons line rest ih =>
      rw [Api.summaryPhase1]
      repeat' split
      all_goals first
        | exact ih
        | exact Or.inr ⟨_, rfl⟩

lemma summaryPhase2_shape :
    ∀ lines, Api.summaryPhase2 lines = none
      ∨ ∃ l, Api.summaryPhase2 lines = some (truncate50 l) := by
  intro lines
  induction lines with
  | nil => exact Or.inl rfl
  | cons line rest ih =>
      rw [Api.summaryPhase2]
      split
      · exact Or.inr ⟨_, rfl⟩
      · exact ih

/-- Claim C7 as amended.  The src/api.rs extractor returns either the empty
string or a selected trimmed line cut to its first 50 characters with the
ellipsis appended exactly when the line's UTF-8 byte length exceeds 50 (see
`truncate50`), so its output never exceeds 53 characters; the src/github_api.rs
variant enforces no 50-character bound at all (a 60-character body passes
through whole). -/
theorem extract_work_summary_amended (body : Str) :
    (Api.extract_work_summary body = []
      ∨ ∃ l, Api.extract_work_summary body = truncate50 l)
    ∧ (Api.extract_work_summary body).length ≤ 53
    ∧ 50 < (GithubApi.extract_work_summary (List.replicate 60 'a')).length := by
  have hgo : 50 < (GithubApi.extract_work_summary (List.replicate 60 'a')).length := by
    decide
  have h1 := summaryPhase1_shape (linesOf body) (linesOf body)
  have h2 := summaryPhase2_shape (linesOf body)
  rcases h1 with h1 | ⟨l, h1⟩
  · rcases h2 with h2 | ⟨l2, h2⟩
    · have he : Api.extract_work_summary body = [] := by
        unfold Api.extract_work_summary
        dsimp only
        rw [h1, h2]
      rw [he]
      exact ⟨Or.inl rfl, by simp, hgo⟩
    · have he : Api.extract_work_summary body = truncate50 l2 := by
        unfold Api.extract_work_summary
        dsimp only
        rw [h1, h2]
      rw [he]
      exact ⟨Or.inr ⟨l2, rfl⟩, truncate50_length l2, hgo⟩
  · have he : Api.extract_work_summary body = truncate50 l := by
      unfold Api.extract_work_summary
      dsimp only
      rw [h1]
    rw [he]
    exact ⟨Or.inr ⟨l, rfl⟩, truncate50_length l, hgo⟩

/-- Claim C9 as amended: with an empty PR list the report is exactly the
header — whose total is the response's `total_count` field, hence 0 exactly
when the response reports 0 — followed by the fixed "no work today" sentence
(no per-PR blocks) and the fixed instruction trailer. -/
theorem generate_standup_report_empty_amended (tc : Nat) (inc : Bool) :
    GithubApi.generate_standup_report
        { total_count := tc, incomplete_results := inc, items := [] } =
      str ("=== 每日站会报告数据 ===\n\n")
      ++ str ("## 原始 GitHub PR 数据摘要\n")
      ++ str ("- 今日创建的 PR 总数：") ++ natToStr tc ++ str ("\n")
      ++ str ("- 数据完整性：")
      ++ (if inc then str ("部分数据") else str ("完整数据"))
      ++ str ("\n\n")
      ++ str ("今天没有创建任何 PR，可能没有代码提交工作完成。\n\n")
      ++ str ("## AI 处理指引\n") ++ GithubApi.aiPrompt := by
  rfl
